import Mathlib

/-!
Verification of the artifact/release download orchestration in the
celestial-calendar automation scripts.

The embedding covers:

* the bounded worker-pool downloader of `src/automation/github.py`
  (`GitHub.async_download_artifacts`, `GitHub.async_download_release`),
  modelled as a small-step transition system over a configuration holding
  the shared `asyncio.Queue`, the worker coroutines, the `paths` list of
  successful downloads, and the console error log (`red_print`);
* the older near-duplicate worker loop of `src/automation/download.py`,
  whose workers loop `while True` and therefore never exit;
* the run/workflow selection logic of `src/toolbox/artifact_downloader.py`
  (`artifact_workflow`, `latest_artifact_run`);
* the release selection of `src/toolbox/release_downloader.py`;
* the driver `main` of `src/toolbox/artifact_downloader.py`, including the
  unzip post-processing block, and the unzip block of the legacy
  `src/artifact_downloader.py`.

Modelling conventions:

* timestamps (`created_at`, `published_at`) are ISO-8601 UTC strings in the
  source and compare lexicographically exactly as chronologically; they are
  modelled as `Nat`;
* a download either succeeds or raises; the transport is an oracle
  `net : Item → Bool`;
* a successful artifact download is stored at `download_dir/<name>.zip`
  (`download_one_artifact`), so a downloaded file is represented by its
  item name, the file path being `artifactPath dir name`;
* `red_print` failure messages (`# Failed to download <name>: <e>`) are
  represented by the failed item's name;
* Python `raise` becomes `Except.error` carrying the message string
  (without the interpolated parts).
-/

/-- A fetch descriptor: the item name paired with its download URL
(one `(name, url)` entry of the queue in `async_download_artifacts` /
`async_download_release`). -/
abbrev Item := String × String

/-- Outbound GitHub API activity, used to trace network calls. -/
inductive ApiCall where
  | listWorkflows
  | listRuns
  | listArtifacts (run_id : Nat)
  | listReleases
  | download (name : String) (url : String)
  deriving DecidableEq

/-- Status of one worker coroutine of the pool in
`GitHub.async_download_artifacts` (and `async_download_release`):
at the top of the `while not queue.empty()` loop (`idle`), inside
`await asyncio.to_thread(...)` on one item (`busy`), or returned (`done`). -/
inductive WStatus where
  | idle
  | busy (it : Item)
  | done
  deriving DecidableEq

/-- Configuration of one batch of `async_download_artifacts` /
`async_download_release`: the shared `asyncio.Queue`, the worker tasks,
the `paths` list of successful downloads (represented by item names),
the `red_print` error log (failed item names), and the trace of issued
download requests. -/
structure Cfg where
  queue   : List Item
  workers : List WStatus
  paths   : List String
  errs    : List String
  log     : List ApiCall
  deriving DecidableEq

/-- Initial configuration: all descriptors enqueued once
(`queue.put_nowait` loop), `parallel` worker tasks created
(`asyncio.create_task(coro()) for _ in range(parallel)`), nothing
downloaded yet. -/
def initCfg (items : List Item) (parallel : Nat) : Cfg :=
  { queue := items
    workers := List.replicate parallel WStatus.idle
    paths := []
    errs := []
    log := [] }

/-- Small-step semantics of the worker pool of
`GitHub.async_download_artifacts` (lines 201-210) and
`GitHub.async_download_release` (lines 378-387).  A worker at the loop head
atomically checks `queue.empty()` and, if non-empty, takes the front item
(`await queue.get()` does not suspend on a non-empty queue); on an empty
queue it leaves the loop and its task completes.  Finishing a download
appends to `paths` on success, or `red_print`s the failure; either way the
worker returns to the loop head (`try`/`except`/`finally`). -/
inductive Step (net : Item → Bool) : Cfg → Cfg → Prop
  | take (s : Cfg) (i : Nat) (it : Item) (rest : List Item)
      (hw : s.workers[i]? = some WStatus.idle) (hq : s.queue = it :: rest) :
      Step net s { s with
        queue := rest
        workers := s.workers.set i (WStatus.busy it)
        log := s.log ++ [ApiCall.download it.1 it.2] }
  | exit (s : Cfg) (i : Nat)
      (hw : s.workers[i]? = some WStatus.idle) (hq : s.queue = []) :
      Step net s { s with workers := s.workers.set i WStatus.done }
  | finishOk (s : Cfg) (i : Nat) (it : Item)
      (hw : s.workers[i]? = some (WStatus.busy it)) (hn : net it = true) :
      Step net s { s with
        workers := s.workers.set i WStatus.idle
        paths := s.paths ++ [it.1] }
  | finishErr (s : Cfg) (i : Nat) (it : Item)
      (hw : s.workers[i]? = some (WStatus.busy it)) (hn : net it = false) :
      Step net s { s with
        workers := s.workers.set i WStatus.idle
        errs := s.errs ++ [it.1] }

/-- Reachability under any interleaving of the worker tasks. -/
def Reach (net : Item → Bool) : Cfg → Cfg → Prop :=
  Relation.ReflTransGen (Step net)

/-- A configuration from which no worker can move: the point at which
`await asyncio.gather(*tasks)` returns. -/
def Terminal (net : Item → Bool) (s : Cfg) : Prop :=
  ∀ t, ¬ Step net s t

/-- All worker tasks have completed (the condition for
`asyncio.gather(*tasks)` to return). -/
def AllDone (s : Cfg) : Prop :=
  ∀ w ∈ s.workers, w = WStatus.done

instance (s : Cfg) : Decidable (AllDone s) := by
  unfold AllDone; infer_instance

/-- Small-step semantics of the worker loop of the older near-duplicate
`src/automation/download.py` (`async_download_artifacts.coro`, lines
106-114): the body is `while True`, so a worker at the loop head on an
empty queue blocks forever inside `await queue.get()` — there is no exit
transition.  `download_one_artifact` there returns `None`, so nothing is
collected into a result list; failures are `red_print`ed. -/
inductive StepLoop (net : Item → Bool) : Cfg → Cfg → Prop
  | take (s : Cfg) (i : Nat) (it : Item) (rest : List Item)
      (hw : s.workers[i]? = some WStatus.idle) (hq : s.queue = it :: rest) :
      StepLoop net s { s with
        queue := rest
        workers := s.workers.set i (WStatus.busy it)
        log := s.log ++ [ApiCall.download it.1 it.2] }
  | finishOk (s : Cfg) (i : Nat) (it : Item)
      (hw : s.workers[i]? = some (WStatus.busy it)) (hn : net it = true) :
      StepLoop net s { s with workers := s.workers.set i WStatus.idle }
  | finishErr (s : Cfg) (i : Nat) (it : Item)
      (hw : s.workers[i]? = some (WStatus.busy it)) (hn : net it = false) :
      StepLoop net s { s with
        workers := s.workers.set i WStatus.idle
        errs := s.errs ++ [it.1] }

/-- Reachability for the `automation/download.py` worker-loop variant. -/
def ReachLoop (net : Item → Bool) : Cfg → Cfg → Prop :=
  Relation.ReflTransGen (StepLoop net)

/-! ## GitHub data model (src/automation/github.py) -/

/-- `GitHub.Workflow` (github.py lines 47-57). -/
structure Workflow where
  id         : Nat
  name       : String
  state      : String
  created_at : Nat
  updated_at : Nat
  url        : String
  deriving DecidableEq

/-- `GitHub.Run` (github.py lines 85-97). -/
structure Run where
  id          : Nat
  name        : String
  run_number  : Nat
  status      : String
  workflow_id : Nat
  url         : String
  created_at  : Nat
  updated_at  : Nat
  deriving DecidableEq

/-- One artifact record of the `actions/runs/<id>/artifacts` response. -/
structure Artifact where
  name                 : String
  archive_download_url : String
  deriving DecidableEq

/-- `GitHub.Asset` (github.py lines 239-250). -/
structure Asset where
  id                   : Nat
  name                 : String
  content_type         : String
  size                 : Nat
  download_count       : Nat
  url                  : String
  browser_download_url : String
  deriving DecidableEq

/-- `GitHub.Release` (github.py lines 252-269). -/
structure Release where
  id           : Nat
  tag_name     : String
  draft        : Bool
  prerelease   : Bool
  created_at   : Nat
  published_at : Nat
  name         : String
  url          : String
  html_url     : String
  tarball_url  : String
  zipball_url  : String
  assets_url   : String
  assets       : List Asset
  deriving DecidableEq

/-- The remote GitHub state backing `GitHub.list_workflows`,
`GitHub.list_runs`, `GitHub.get_artifacts_download_urls` and
`GitHub.list_releases`. -/
structure GitHubApi where
  workflows : List Workflow
  runs      : List Run
  artifacts : Nat → List Artifact
  releases  : List Release

/-! ## Catalog queries -/

/-- Python dict insertion: first-occurrence position, last value wins. -/
def dictInsert (l : List (String × String)) (kv : String × String) :
    List (String × String) :=
  if l.any (fun p => p.1 == kv.1) then
    l.map (fun p => if p.1 == kv.1 then (p.1, kv.2) else p)
  else l ++ [kv]

/-- Semantics of a Python dict comprehension over an association list. -/
def dictOf (l : List (String × String)) : List (String × String) :=
  l.foldl dictInsert []

/-- `GitHub.get_artifacts_download_urls` (github.py lines 128-147): the
dict comprehension `{artifact["name"]: artifact["archive_download_url"]}`
over the run's artifact collection.  For an empty collection it returns
the empty dict — it does not raise. -/
def get_artifacts_download_urls (api : GitHubApi) (run_id : Nat) :
    List (String × String) :=
  dictOf ((api.artifacts run_id).map (fun a => (a.name, a.archive_download_url)))

/-! ## Selection (src/toolbox/artifact_downloader.py, release_downloader.py) -/

/-- Stable descending insertion by key: the element is placed before the
first element whose key does not exceed its own.  This matches Python's
stable `sorted(..., key=..., reverse=True)`. -/
def insertDesc {α : Type} (key : α → Nat) (a : α) : List α → List α
  | [] => [a]
  | b :: l => if key b ≤ key a then a :: b :: l else b :: insertDesc key a l

/-- `sorted(l, key=key, reverse=True)`: stable descending sort. -/
def sortDesc {α : Type} (key : α → Nat) (l : List α) : List α :=
  l.foldr (insertDesc key) []

def workflowName : String := "Build and Test on Multiple Platforms"

def msgNoWorkflow : String :=
  "Cannot find the workflow \"Build and Test on Multiple Platforms\""

def msgNoRuns : String := "Cannot find any artifact runs"

def msgNotCompleted : String :=
  "Cannot download artifacts from a non-completed run"

def msgInvalidParallel : String := "Invalid parallel value"

def msgInvalidNumParallel : String := "Invalid number of parallel downloads"

def msgNoReleases : String := "Cannot find any releases"

def msgBadReleaseId : String := "Invalid release id"

def msgUnpackFailed : String := "unpack_archive failed"

/-- `artifact_workflow` (toolbox/artifact_downloader.py lines 32-45):
`GitHub.list_workflows()` is queried (traced), the result is filtered by
exact name, and anything but exactly one match raises. -/
def artifact_workflow (api : GitHubApi)
    (workflow_name : String := workflowName) :
    Except String Workflow × List ApiCall :=
  let mp := api.workflows.filter (fun wf => wf.name == workflow_name)
  (match mp with
   | [wf] => Except.ok wf
   | _ => Except.error msgNoWorkflow,
   [ApiCall.listWorkflows])

/-- `latest_artifact_run` (toolbox/artifact_downloader.py lines 48-69):
resolve the workflow first; only then query `GitHub.list_runs()` (traced),
filter to the workflow's runs, take the head of the runs sorted by
`created_at` descending, and insist on status `completed`. -/
def latest_artifact_run (api : GitHubApi) :
    Except String Run × List ApiCall :=
  match artifact_workflow api with
  | (Except.error e, tr) => (Except.error e, tr)
  | (Except.ok workflow, tr) =>
    let artifact_runs :=
      api.runs.filter (fun run => run.workflow_id == workflow.id)
    let tr := tr ++ [ApiCall.listRuns]
    if artifact_runs.length == 0 then (Except.error msgNoRuns, tr)
    else
      match sortDesc Run.created_at artifact_runs with
      | [] => (Except.error msgNoRuns, tr)  -- unreachable: the filter result is non-empty
      | latest_run :: _ =>
        if latest_run.status == "completed" then (Except.ok latest_run, tr)
        else (Except.error msgNotCompleted, tr)

/-- `get_latest_release` (toolbox/release_downloader.py lines 42-50):
raises on an empty release list, else the release with the greatest
`published_at`. -/
def get_latest_release (api : GitHubApi) : Except String Release :=
  if api.releases.length == 0 then Except.error msgNoReleases
  else
    match sortDesc Release.published_at api.releases with
    | [] => Except.error msgNoReleases  -- unreachable: the release list is non-empty
    | r :: _ => Except.ok r

/-! ## Release queue construction (github.py lines 366-374) -/

/-- The source tarball URL hardcoded in `async_download_release`
(github.py lines 373-374): both extra queue entries use this same
`.tar.gz` URL. -/
def tarball_url (tag : String) : String :=
  "https://github.com/0xf3cd/celestial-calendar/archive/refs/tags/"
    ++ tag ++ ".tar.gz"

/-- The queue built by `async_download_release`: one entry per asset
(`asset.name`, `asset.browser_download_url`) followed by the two extra
entries `src.zip` and `src.tar.gz`, both pointing at the same source
tarball URL for the release's tag. -/
def release_item_queue (rel : Release) : List Item :=
  rel.assets.map (fun a => (a.name, a.browser_download_url))
    ++ [("src.zip", tarball_url rel.tag_name),
        ("src.tar.gz", tarball_url rel.tag_name)]

/-! ## Top-level download entry points -/

/-- `GitHub.async_download_artifacts` (github.py lines 177-220) as a
relation between the `parallel` argument and the observable outcome
(returned value and network trace).  The `parallel` range gate (lines
189-190) precedes the catalog query; with a valid `parallel` the function
runs the worker pool to quiescence and returns `paths`. -/
inductive DownloadAll (api : GitHubApi) (net : Item → Bool) (run_id : Nat) :
    Int → Except String (List String) → List ApiCall → Prop
  | invalid (parallel : Int) (h : parallel < 1 ∨ 20 < parallel) :
      DownloadAll api net run_id parallel (Except.error msgInvalidParallel) []
  | run (parallel : Int) (s : Cfg) (h1 : 1 ≤ parallel) (h2 : parallel ≤ 20)
      (hr : Reach net
        (initCfg (get_artifacts_download_urls api run_id) parallel.toNat) s)
      (ht : Terminal net s) :
      DownloadAll api net run_id parallel (Except.ok s.paths)
        (ApiCall.listArtifacts run_id :: s.log)

/-- `GitHub.async_download_release` (github.py lines 341-397): same gate,
then the release is located by id among `list_releases()` (first match),
the queue of assets plus the two source archives is built, and the pool
runs to quiescence. -/
inductive DownloadRelease (api : GitHubApi) (net : Item → Bool)
    (release_id : Nat) : Int → Except String (List String) → Prop
  | invalid (parallel : Int) (h : parallel < 1 ∨ 20 < parallel) :
      DownloadRelease api net release_id parallel
        (Except.error msgInvalidParallel)
  | no_release (parallel : Int) (h1 : 1 ≤ parallel) (h2 : parallel ≤ 20)
      (hf : api.releases.find? (fun r => r.id == release_id) = none) :
      DownloadRelease api net release_id parallel
        (Except.error msgBadReleaseId)
  | run (parallel : Int) (rel : Release) (s : Cfg)
      (h1 : 1 ≤ parallel) (h2 : parallel ≤ 20)
      (hf : api.releases.find? (fun r => r.id == release_id) = some rel)
      (hr : Reach net (initCfg (release_item_queue rel) parallel.toNat) s)
      (ht : Terminal net s) :
      DownloadRelease api net release_id parallel (Except.ok s.paths)

/-! ## Filesystem model and unzip post-processing -/

/-- A filesystem path, as components. -/
abbrev FsPath := List String

/-- The set of regular files on disk. -/
abbrev FS := List FsPath

/-- Where `download_one_artifact` stores an artifact:
`download_dir / f"{name}.zip"`. -/
def artifactPath (dir : FsPath) (name : String) : FsPath :=
  dir ++ [name ++ ".zip"]

/-- The unzip block of toolbox/artifact_downloader.py `main` (lines
132-144) for one downloaded artifact `save_to/<stem>.zip`: make
`save_to/<stem>`, `shutil.unpack_archive` into it (raises on a corrupt
archive, leaving the filesystem unchanged), then `artifact.unlink()`.
The archive members are given by the oracle `contents` (`none` means
`unpack_archive` raises). -/
def unzip_one (save_to : FsPath) (contents : String → Option (List String))
    (fs : FS) (stem : String) : Option FS :=
  match contents stem with
  | none => none
  | some members =>
    some ((fs ++ members.map (fun m => save_to ++ [stem, m])).filter
      (fun p => p ≠ artifactPath save_to stem))

/-- The unzip block of the legacy src/artifact_downloader.py (lines
103-109): `shutil.unpack_archive(artifact, extract_dir=save_dir)` unpacks
directly into the destination directory — no per-item subdirectory — then
unlinks the archive. -/
def unzip_one_legacy (save_dir : FsPath)
    (contents : String → Option (List String)) (fs : FS) (stem : String) :
    Option FS :=
  match contents stem with
  | none => none
  | some members =>
    some ((fs ++ members.map (fun m => save_dir ++ [m])).filter
      (fun p => p ≠ artifactPath save_dir stem))

/-- The `for artifact in downloaded_artifacts` loop of the toolbox driver:
an `unpack_archive` exception propagates and aborts the loop. -/
def unzip_loop (save_to : FsPath)
    (contents : String → Option (List String)) :
    FS → List String → Option FS
  | fs, [] => some fs
  | fs, stem :: rest =>
    match unzip_one save_to contents fs stem with
    | none => none
    | some fs2 => unzip_loop save_to contents fs2 rest

/-! ## The toolbox driver (src/toolbox/artifact_downloader.py main) -/

/-- Command-line arguments of toolbox/artifact_downloader.py
(`run_id` keeps its argparse default 0 = "use the latest run"). -/
structure Args where
  run_id   : Nat
  save_to  : FsPath
  parallel : Int
  unzip    : Bool

/-- How `main` resolves the run id to download from: an explicit
`--run-id`, or the id of `latest_artifact_run()` when the argument kept
its default 0. -/
def ResolvesTo (api : GitHubApi) (args : Args) (rid : Nat) : Prop :=
  (args.run_id ≠ 0 ∧ rid = args.run_id)
    ∨ (args.run_id = 0 ∧
        ∃ run, (latest_artifact_run api).1 = Except.ok run ∧ rid = run.id)

/-- `main` of toolbox/artifact_downloader.py (lines 118-144) as a relation
on the observable outcome.  `Except.ok (names, fs)` is a normal return
(process exit code 0), carrying the successfully downloaded item names and
the final filesystem; `Except.error` is an uncaught exception (non-zero
exit code).  `validate_args` rejects `parallel < 1`; a download batch
writes `artifactPath save_to name` for every success; per-item download
failures are only `red_print`ed inside the pool and never reach `main`. -/
inductive MainRun (api : GitHubApi) (net : Item → Bool)
    (contents : String → Option (List String)) (fs0 : FS) :
    Args → Except String (List String × FS) → Prop
  | invalid_parallel (args : Args) (h : args.parallel < 1) :
      MainRun api net contents fs0 args (Except.error msgInvalidNumParallel)
  | select_fail (args : Args) (e : String)
      (hp : 1 ≤ args.parallel) (h0 : args.run_id = 0)
      (hs : (latest_artifact_run api).1 = Except.error e) :
      MainRun api net contents fs0 args (Except.error e)
  | download_fail (args : Args) (rid : Nat) (e : String) (tr : List ApiCall)
      (hp : 1 ≤ args.parallel) (hr : ResolvesTo api args rid)
      (hD : DownloadAll api net rid args.parallel (Except.error e) tr) :
      MainRun api net contents fs0 args (Except.error e)
  | unzip_fail (args : Args) (rid : Nat) (names : List String)
      (tr : List ApiCall)
      (hp : 1 ≤ args.parallel) (hr : ResolvesTo api args rid)
      (hD : DownloadAll api net rid args.parallel (Except.ok names) tr)
      (hu : args.unzip = true)
      (hz : unzip_loop args.save_to contents
        (fs0 ++ names.map (artifactPath args.save_to)) names = none) :
      MainRun api net contents fs0 args (Except.error msgUnpackFailed)
  | done (args : Args) (rid : Nat) (names : List String)
      (tr : List ApiCall) (fs1 : FS)
      (hp : 1 ≤ args.parallel) (hr : ResolvesTo api args rid)
      (hD : DownloadAll api net rid args.parallel (Except.ok names) tr)
      (hz : (if args.unzip then
          unzip_loop args.save_to contents
            (fs0 ++ names.map (artifactPath args.save_to)) names
        else some (fs0 ++ names.map (artifactPath args.save_to))) = some fs1) :
      MainRun api net contents fs0 args (Except.ok (names, fs1))

/-! ## Worker-pool lemmas -/

/-- The items currently being downloaded by busy workers. -/
def busyL (ws : List WStatus) : List Item :=
  ws.filterMap (fun w => match w with | WStatus.busy it => some it | _ => none)

lemma busyL_cons (w : WStatus) (ws : List WStatus) :
    busyL (w :: ws) = busyL [w] ++ busyL ws := by
  cases w <;> simp [busyL]

lemma busyL_replicate (p : Nat) :
    busyL (List.replicate p WStatus.idle) = [] := by
  induction p with
  | zero => rfl
  | succ n ih => rw [List.replicate_succ, busyL_cons, ih]; rfl

lemma busyL_eq_nil (ws : List WStatus) (h : ∀ w ∈ ws, w = WStatus.done) :
    busyL ws = [] := by
  induction ws with
  | nil => rfl
  | cons w t ih =>
    have hw := h w (List.mem_cons_self w t)
    subst hw
    rw [busyL_cons, ih (fun x hx => h x (List.mem_cons_of_mem _ hx))]
    rfl

lemma busyL_set (ws : List WStatus) (i : Nat) (w v : WStatus)
    (h : ws[i]? = some w) :
    (↑(busyL (ws.set i v)) + ↑(busyL [w]) : Multiset Item)
      = ↑(busyL ws) + ↑(busyL [v]) := by
  induction ws generalizing i with
  | nil => simp at h
  | cons a t ih =>
    cases i with
    | zero =>
      rw [List.getElem?_cons_zero] at h
      cases h
      rw [List.set_cons_zero, busyL_cons, busyL_cons w t]
      rw [← Multiset.coe_add, ← Multiset.coe_add]
      abel
    | succ j =>
      rw [List.getElem?_cons_succ] at h
      rw [List.set_cons_succ, busyL_cons, busyL_cons a t]
      rw [← Multiset.coe_add, ← Multiset.coe_add]
      have := ih j h
      push_cast at this ⊢
      rw [add_assoc, add_assoc, this]

lemma step_workers_length {net : Item → Bool} {s t : Cfg}
    (h : Step net s t) : t.workers.length = s.workers.length := by
  cases h <;> simp

lemma reach_workers_length {net : Item → Bool} {s t : Cfg}
    (h : Reach net s t) : t.workers.length = s.workers.length := by
  induction h with
  | refl => rfl
  | tail _ hstep ih => rw [step_workers_length hstep, ih]

lemma pool_progress (net : Item → Bool) (s : Cfg) (h : ¬ AllDone s) :
    ∃ t, Step net s t := by
  unfold AllDone at h
  push_neg at h
  obtain ⟨w, hw, hne⟩ := h
  obtain ⟨i, hi⟩ := List.mem_iff_getElem?.mp hw
  cases w with
  | done => exact absurd rfl hne
  | idle =>
    cases hq : s.queue with
    | nil => exact ⟨_, Step.exit s i hi hq⟩
    | cons it rest => exact ⟨_, Step.take s i it rest hi hq⟩
  | busy it =>
    cases hn : net it with
    | true => exact ⟨_, Step.finishOk s i it hi hn⟩
    | false => exact ⟨_, Step.finishErr s i it hi hn⟩

lemma terminal_allDone {net : Item → Bool} {s : Cfg}
    (ht : Terminal net s) : AllDone s := by
  by_contra h
  obtain ⟨t, hstep⟩ := pool_progress net s h
  exact ht t hstep

lemma allDone_terminal {net : Item → Bool} {s : Cfg}
    (h : AllDone s) : Terminal net s := by
  intro t hstep
  cases hstep with
  | take i it rest hw hq => exact absurd (h _ (List.getElem?_mem hw)) (by simp)
  | exit i hw hq => exact absurd (h _ (List.getElem?_mem hw)) (by simp)
  | finishOk i it hw hn => exact absurd (h _ (List.getElem?_mem hw)) (by simp)
  | finishErr i it hw hn => exact absurd (h _ (List.getElem?_mem hw)) (by simp)

lemma reach_done_empty {net : Item → Bool} {items : List Item} {p : Nat}
    {s : Cfg} (hr : Reach net (initCfg items p) s) :
    WStatus.done ∈ s.workers → s.queue = [] := by
  induction hr with
  | refl =>
    intro h
    simp [initCfg, List.mem_replicate] at h
  | tail _ hstep ih =>
    intro hdone
    cases hstep with
    | take i it rest hw hq =>
      rcases List.mem_or_eq_of_mem_set hdone with h1 | h1
      · rw [ih h1] at hq; cases hq
      · cases h1
    | exit i hw hq => exact hq
    | finishOk i it hw hn =>
      rcases List.mem_or_eq_of_mem_set hdone with h1 | h1
      · exact ih h1
      · cases h1
    | finishErr i it hw hn =>
      rcases List.mem_or_eq_of_mem_set hdone with h1 | h1
      · exact ih h1
      · cases h1

/-- Accounting invariant of one batch: every descriptor is in exactly one
place — still queued, in flight at a busy worker, or processed — and the
processed items are reflected exactly once each in `paths` (successes) and
in the error log (failures). -/
def Acct (net : Item → Bool) (items : List Item) (s : Cfg) : Prop :=
  ∃ processed : List Item,
    (↑s.queue + ↑(busyL s.workers) + ↑processed : Multiset Item) = ↑items
    ∧ (↑s.paths : Multiset String)
        = ↑((processed.filter (fun it => net it)).map Prod.fst)
    ∧ (↑s.errs : Multiset String)
        = ↑((processed.filter (fun it => !net it)).map Prod.fst)

lemma acct_init (net : Item → Bool) (items : List Item) (p : Nat) :
    Acct net items (initCfg items p) := by
  refine ⟨[], ?_, ?_, ?_⟩ <;> simp [initCfg, busyL_replicate]

lemma busyL_idle : busyL [WStatus.idle] = [] := rfl

lemma busyL_done : busyL [WStatus.done] = [] := rfl

lemma busyL_busy (it : Item) : busyL [WStatus.busy it] = [it] := rfl

lemma acct_step {net : Item → Bool} {items : List Item} {s t : Cfg}
    (hstep : Step net s t) (ha : Acct net items s) : Acct net items t := by
  obtain ⟨P, hQ, hP, hE⟩ := ha
  cases hstep with
  | take i it rest hw hq =>
    refine ⟨P, ?_, hP, hE⟩
    have hb := busyL_set s.workers i WStatus.idle (WStatus.busy it) hw
    rw [busyL_idle, busyL_busy] at hb
    simp only [Multiset.coe_nil, add_zero, Multiset.coe_singleton] at hb
    rw [hq] at hQ
    dsimp only
    rw [hb, ← hQ, ← Multiset.cons_coe, ← Multiset.singleton_add]
    abel
  | exit i hw hq =>
    refine ⟨P, ?_, hP, hE⟩
    have hb := busyL_set s.workers i WStatus.idle WStatus.done hw
    rw [busyL_idle, busyL_done] at hb
    simp only [Multiset.coe_nil, add_zero] at hb
    dsimp only
    rw [hb]
    exact hQ
  | finishOk i it hw hn =>
    have hb := busyL_set s.workers i (WStatus.busy it) WStatus.idle hw
    rw [busyL_idle, busyL_busy] at hb
    simp only [Multiset.coe_nil, add_zero, Multiset.coe_singleton] at hb
    have hfT : List.filter (fun x => net x) [it] = [it] := by simp [hn]
    have hfF : List.filter (fun x => !net x) [it] = [] := by simp [hn]
    refine ⟨P ++ [it], ?_, ?_, ?_⟩
    · rw [← hb] at hQ
      dsimp only
      rw [← hQ, ← Multiset.coe_add, Multiset.coe_singleton]
      abel
    · dsimp only
      rw [List.filter_append, hfT, List.map_append]
      simp only [← Multiset.coe_add, List.map_cons, List.map_nil]
      rw [hP]
    · dsimp only
      rw [List.filter_append, hfF, List.map_append, List.map_nil,
        List.append_nil]
      exact hE
  | finishErr i it hw hn =>
    have hb := busyL_set s.workers i (WStatus.busy it) WStatus.idle hw
    rw [busyL_idle, busyL_busy] at hb
    simp only [Multiset.coe_nil, add_zero, Multiset.coe_singleton] at hb
    have hfT : List.filter (fun x => net x) [it] = [] := by simp [hn]
    have hfF : List.filter (fun x => !net x) [it] = [it] := by simp [hn]
    refine ⟨P ++ [it], ?_, ?_, ?_⟩
    · rw [← hb] at hQ
      dsimp only
      rw [← hQ, ← Multiset.coe_add, Multiset.coe_singleton]
      abel
    · dsimp only
      rw [List.filter_append, hfT, List.map_append, List.map_nil,
        List.append_nil]
      exact hP
    · dsimp only
      rw [List.filter_append, hfF, List.map_append]
      simp only [← Multiset.coe_add, List.map_cons, List.map_nil]
      rw [hE]

lemma acct_reach {net : Item → Bool} {items : List Item} {s t : Cfg}
    (hr : Reach net s t) (ha : Acct net items s) : Acct net items t := by
  induction hr with
  | refl => exact ha
  | tail _ hstep ih => exact acct_step hstep ih

/-- Observable outcome of a completed batch, over every schedule: the
`paths` list holds exactly the successful items (each exactly once, as a
multiset), the error log holds exactly the failed items, the queue is
drained, and every worker has terminated. -/
lemma pool_final {net : Item → Bool} {items : List Item} {p : Nat} {s : Cfg}
    (hp : 1 ≤ p) (hr : Reach net (initCfg items p) s) (ht : Terminal net s) :
    (↑s.paths : Multiset String)
        = ↑((items.filter (fun it => net it)).map Prod.fst)
    ∧ (↑s.errs : Multiset String)
        = ↑((items.filter (fun it => !net it)).map Prod.fst)
    ∧ s.queue = [] ∧ AllDone s := by
  have hAll : AllDone s := terminal_allDone ht
  have hlen : s.workers.length = p := by
    rw [reach_workers_length hr]
    simp [initCfg]
  have hdone : WStatus.done ∈ s.workers := by
    cases hws : s.workers with
    | nil => rw [hws] at hlen; simp at hlen; omega
    | cons w tl =>
      have hw := hAll w (by rw [hws]; exact List.mem_cons_self w tl)
      rw [← hw]
      exact List.mem_cons_self _ tl
  have hqe : s.queue = [] := reach_done_empty hr hdone
  obtain ⟨P, hQ, hPa, hEr⟩ := acct_reach hr (acct_init net items p)
  rw [hqe, busyL_eq_nil s.workers hAll] at hQ
  simp only [Multiset.coe_nil, zero_add] at hQ
  have hperm : P.Perm items := Multiset.coe_eq_coe.mp hQ
  refine ⟨?_, ?_, hqe, hAll⟩
  · rw [hPa]
    exact Multiset.coe_eq_coe.mpr ((hperm.filter _).map _)
  · rw [hEr]
    exact Multiset.coe_eq_coe.mpr ((hperm.filter _).map _)

/-- The canonical single-worker schedule: one worker drains the whole
queue front to back.  Used to exhibit concrete executions. -/
lemma reach_seq (net : Item → Bool) :
    ∀ (q : List Item) (ps es : List String) (lg : List ApiCall),
    Reach net
      { queue := q, workers := [WStatus.idle], paths := ps, errs := es,
        log := lg }
      { queue := [], workers := [WStatus.done],
        paths := ps ++ (q.filter (fun it => net it)).map Prod.fst,
        errs := es ++ (q.filter (fun it => !net it)).map Prod.fst,
        log := lg ++ q.map (fun it => ApiCall.download it.1 it.2) } := by
  intro q
  induction q with
  | nil =>
    intro ps es lg
    have h := Relation.ReflTransGen.single
      (@Step.exit net
        { queue := [], workers := [WStatus.idle], paths := ps, errs := es,
          log := lg } 0 rfl rfl)
    simpa using h
  | cons it rest ih =>
    intro ps es lg
    have s1 := @Step.take net
      { queue := it :: rest, workers := [WStatus.idle], paths := ps,
        errs := es, log := lg } 0 it rest rfl rfl
    refine Relation.ReflTransGen.head s1 ?_
    cases hn : net it with
    | true =>
      have s2 := @Step.finishOk net
        { queue := rest, workers := [WStatus.busy it], paths := ps,
          errs := es, log := lg ++ [ApiCall.download it.1 it.2] } 0 it rfl hn
      refine Relation.ReflTransGen.head s2 ?_
      have h3 := ih (ps ++ [it.1]) es (lg ++ [ApiCall.download it.1 it.2])
      simpa [List.filter_cons, hn, List.append_assoc] using h3
    | false =>
      have s2 := @Step.finishErr net
        { queue := rest, workers := [WStatus.busy it], paths := ps,
          errs := es, log := lg ++ [ApiCall.download it.1 it.2] } 0 it rfl hn
      refine Relation.ReflTransGen.head s2 ?_
      have h3 := ih ps (es ++ [it.1]) (lg ++ [ApiCall.download it.1 it.2])
      simpa [List.filter_cons, hn, List.append_assoc] using h3

/-! ## The automation/download.py worker loop never completes -/

lemma stepLoop_no_done {net : Item → Bool} {s t : Cfg}
    (h : StepLoop net s t) (hnd : WStatus.done ∉ s.workers) :
    WStatus.done ∉ t.workers := by
  cases h with
  | take i it rest hw hq =>
    intro hmem
    rcases List.mem_or_eq_of_mem_set hmem with h1 | h1
    · exact hnd h1
    · cases h1
  | finishOk i it hw hn =>
    intro hmem
    rcases List.mem_or_eq_of_mem_set hmem with h1 | h1
    · exact hnd h1
    · cases h1
  | finishErr i it hw hn =>
    intro hmem
    rcases List.mem_or_eq_of_mem_set hmem with h1 | h1
    · exact hnd h1
    · cases h1

lemma stepLoop_workers_length {net : Item → Bool} {s t : Cfg}
    (h : StepLoop net s t) : t.workers.length = s.workers.length := by
  cases h <;> simp

lemma reachLoop_no_done {net : Item → Bool} {items : List Item} {p : Nat}
    {s : Cfg} (hr : ReachLoop net (initCfg items p) s) :
    WStatus.done ∉ s.workers ∧ s.workers.length = p := by
  induction hr with
  | refl =>
    constructor
    · intro h
      simp [initCfg, List.mem_replicate] at h
    · simp [initCfg]
  | tail _ hstep ih =>
    exact ⟨stepLoop_no_done hstep ih.1,
      by rw [stepLoop_workers_length hstep, ih.2]⟩

/-! ## Stable descending sort lemmas -/

lemma sortDesc_cons {α : Type} (key : α → Nat) (a : α) (l : List α) :
    sortDesc key (a :: l) = insertDesc key a (sortDesc key l) := rfl

lemma mem_insertDesc {α : Type} (key : α → Nat) (a b : α) (l : List α) :
    b ∈ insertDesc key a l ↔ b = a ∨ b ∈ l := by
  induction l with
  | nil => simp [insertDesc]
  | cons c t ih =>
    simp only [insertDesc]
    split
    · simp [List.mem_cons]
    · simp only [List.mem_cons, ih]
      tauto

lemma mem_sortDesc {α : Type} (key : α → Nat) (l : List α) (b : α) :
    b ∈ sortDesc key l ↔ b ∈ l := by
  induction l with
  | nil => simp [sortDesc]
  | cons a t ih =>
    rw [sortDesc_cons, mem_insertDesc, ih, List.mem_cons]

lemma pairwise_insertDesc {α : Type} (key : α → Nat) (a : α) (l : List α)
    (h : l.Pairwise (fun x y => key y ≤ key x)) :
    (insertDesc key a l).Pairwise (fun x y => key y ≤ key x) := by
  induction l with
  | nil => simp [insertDesc]
  | cons b t ih =>
    rw [List.pairwise_cons] at h
    obtain ⟨hb, ht⟩ := h
    simp only [insertDesc]
    split
    · rename_i hle
      refine List.Pairwise.cons ?_ (List.Pairwise.cons hb ht)
      intro x hx
      rcases List.mem_cons.mp hx with rfl | hx
      · exact hle
      · exact le_trans (hb x hx) hle
    · rename_i hlt
      refine List.Pairwise.cons ?_ (ih ht)
      intro x hx
      rcases (mem_insertDesc key a x t).mp hx with rfl | hx
      · exact le_of_not_le hlt
      · exact hb x hx

lemma pairwise_sortDesc {α : Type} (key : α → Nat) (l : List α) :
    (sortDesc key l).Pairwise (fun x y => key y ≤ key x) := by
  induction l with
  | nil => simp [sortDesc]
  | cons a t ih => rw [sortDesc_cons]; exact pairwise_insertDesc key a _ ih

/-- The head of the stable descending sort is the strictly greatest
element, when one exists. -/
lemma sortDesc_head_max {α : Type} (key : α → Nat) (l : List α) (r : α)
    (hr : r ∈ l) (hmax : ∀ x ∈ l, x ≠ r → key x < key r) :
    ∃ t, sortDesc key l = r :: t := by
  cases hs : sortDesc key l with
  | nil =>
    rw [← mem_sortDesc key] at hr
    rw [hs] at hr
    cases hr
  | cons h0 t =>
    have hh0 : h0 ∈ l := by
      rw [← mem_sortDesc key, hs]
      exact List.mem_cons_self h0 t
    by_cases he : h0 = r
    · exact ⟨t, by rw [he]⟩
    · have h1 : key h0 < key r := hmax h0 hh0 he
      have hrs : r ∈ h0 :: t := by
        rw [← hs, mem_sortDesc]
        exact hr
      rcases List.mem_cons.mp hrs with rfl | hrt
      · exact absurd rfl he
      · have hp := pairwise_sortDesc key l
        rw [hs, List.pairwise_cons] at hp
        have h2 := hp.1 r hrt
        omega

/-! ## Selection lemmas -/

lemma artifact_workflow_single (api : GitHubApi) (wf : Workflow)
    (hwf : api.workflows.filter (fun w => w.name == workflowName) = [wf]) :
    artifact_workflow api = (Except.ok wf, [ApiCall.listWorkflows]) := by
  unfold artifact_workflow
  rw [hwf]

lemma artifact_workflow_ambiguous (api : GitHubApi)
    (h : (api.workflows.filter (fun w => w.name == workflowName)).length ≠ 1) :
    artifact_workflow api = (Except.error msgNoWorkflow, [ApiCall.listWorkflows]) := by
  unfold artifact_workflow
  cases hmp : api.workflows.filter (fun w => w.name == workflowName) with
  | nil => rfl
  | cons a t =>
    cases t with
    | nil => rw [hmp] at h; simp at h
    | cons b t2 => rfl

lemma length_filter_not {α : Type} (f : α → Bool) (l : List α) :
    (l.filter f).length + (l.filter (fun a => !f a)).length = l.length := by
  induction l with
  | nil => rfl
  | cons a t ih => cases h : f a <;> simp [List.filter_cons, h] <;> omega

lemma resolvesTo_unique {api : GitHubApi} {args : Args} {rid1 rid2 : Nat}
    (h1 : ResolvesTo api args rid1) (h2 : ResolvesTo api args rid2) :
    rid1 = rid2 := by
  rcases h1 with ⟨hne, rfl⟩ | ⟨h0, run1, hs1, rfl⟩ <;>
    rcases h2 with ⟨hne2, rfl⟩ | ⟨h02, run2, hs2, rfl⟩
  · rfl
  · exact absurd h02 hne
  · exact absurd h0 hne2
  · rw [hs1] at hs2
    injection hs2 with h
    rw [h]

/-! ## Concrete data used in witnesses and counterexamples -/

def netAll : Item → Bool := fun _ => true

def netNone : Item → Bool := fun _ => false

def apiEmpty : GitHubApi :=
  { workflows := [], runs := [], artifacts := fun _ => [], releases := [] }

def wfA : Workflow :=
  { id := 11, name := workflowName, state := "active", created_at := 1,
    updated_at := 1, url := "wu" }

def runT (n : Nat) (st : String) : Run :=
  { id := 100 + n, name := "r", run_number := n, status := st,
    workflow_id := 11, url := "ru", created_at := n, updated_at := n }

def api3 : GitHubApi :=
  { workflows := [wfA]
    runs := [runT 1 "completed", runT 2 "completed", runT 3 "completed"]
    artifacts := fun _ => []
    releases := [] }

def apiTwoWf : GitHubApi :=
  { workflows := [wfA, { wfA with id := 12 }]
    runs := [runT 1 "completed"]
    artifacts := fun _ => []
    releases := [] }

/-! ## Claim theorems -/

/-- C5: with no explicit id, exactly one workflow of the configured name,
and a run of that workflow whose `created_at` is strictly greatest,
`latest_artifact_run` selects exactly that run when its status is
`completed`, and raises the non-completed error otherwise. -/
theorem latest_artifact_run_selects_max_created (api : GitHubApi)
    (wf : Workflow) (r : Run)
    (hwf : api.workflows.filter (fun w => w.name == workflowName) = [wf])
    (hr : r ∈ api.runs.filter (fun run => run.workflow_id == wf.id))
    (hmax : ∀ x ∈ api.runs.filter (fun run => run.workflow_id == wf.id),
      x ≠ r → x.created_at < r.created_at) :
    (latest_artifact_run api).1 =
      if r.status == "completed" then Except.ok r
      else Except.error msgNotCompleted := by
  have haw := artifact_workflow_single api wf hwf
  obtain ⟨t, hsort⟩ := sortDesc_head_max Run.created_at _ r hr hmax
  have hne : ((api.runs.filter (fun run => run.workflow_id == wf.id)).length == 0) = false := by
    have h0 : r ∈ api.runs.filter (fun run => run.workflow_id == wf.id) := hr
    cases hc : api.runs.filter (fun run => run.workflow_id == wf.id) with
    | nil => rw [hc] at h0; cases h0
    | cons a t2 => rfl
  unfold latest_artifact_run
  rw [haw]
  simp only [hne, hsort, Bool.false_eq_true, if_false]
  cases hst : r.status == "completed" <;> simp [hst]

/-- C5 witness: three completed runs created at 1 < 2 < 3 resolve to the
run created at 3. -/
theorem latest_artifact_run_selects_max_created_witness :
    api3.workflows.filter (fun w => w.name == workflowName) = [wfA]
    ∧ runT 3 "completed" ∈ api3.runs.filter (fun run => run.workflow_id == wfA.id)
    ∧ (∀ x ∈ api3.runs.filter (fun run => run.workflow_id == wfA.id),
        x ≠ runT 3 "completed" → x.created_at < (runT 3 "completed").created_at)
    ∧ (latest_artifact_run api3).1 =
        (if (runT 3 "completed").status == "completed" then
          Except.ok (runT 3 "completed")
        else Except.error msgNotCompleted) :=
  ⟨by decide, by decide, by decide,
   latest_artifact_run_selects_max_created api3 wfA (runT 3 "completed")
     (by decide) (by decide) (by decide)⟩

/-- C6: when zero workflows or more than one workflow carry the configured
name, `latest_artifact_run` fails with the ambiguous-workflow error and
the runs endpoint is never queried. -/
theorem ambiguous_workflow_fails_without_run_listing (api : GitHubApi)
    (h : (api.workflows.filter (fun w => w.name == workflowName)).length ≠ 1) :
    (latest_artifact_run api).1 = Except.error msgNoWorkflow
    ∧ ApiCall.listRuns ∉ (latest_artifact_run api).2 := by
  have haw := artifact_workflow_ambiguous api h
  unfold latest_artifact_run
  rw [haw]
  refine ⟨rfl, ?_⟩
  show ApiCall.listRuns ∉ [ApiCall.listWorkflows]
  decide

/-- C6 witness: two workflows of the identical name. -/
theorem ambiguous_workflow_fails_without_run_listing_witness :
    (apiTwoWf.workflows.filter (fun w => w.name == workflowName)).length ≠ 1
    ∧ ((latest_artifact_run apiTwoWf).1 = Except.error msgNoWorkflow
        ∧ ApiCall.listRuns ∉ (latest_artifact_run apiTwoWf).2) :=
  ⟨by decide, ambiguous_workflow_fails_without_run_listing apiTwoWf (by decide)⟩

/-- C3 (code bug in automation/download.py): in the worker-loop variant
whose body is `while True`, no reachable configuration has all workers
terminated — once the queue drains every worker blocks forever inside
`await queue.get()`, so `asyncio.gather(*tasks)` never returns and
`async_download_artifacts` hangs instead of returning control. -/
theorem download_py_workers_never_terminate (net : Item → Bool)
    (items : List Item) (p : Nat) (s : Cfg) (hp : 1 ≤ p)
    (hr : ReachLoop net (initCfg items p) s) : ¬ AllDone s := by
  obtain ⟨hnd, hlen⟩ := reachLoop_no_done hr
  intro hall
  cases hws : s.workers with
  | nil => rw [hws] at hlen; simp at hlen; omega
  | cons w tl =>
    have hw := hall w (by rw [hws]; exact List.mem_cons_self w tl)
    apply hnd
    rw [hws, ← hw]
    exact List.mem_cons_self w tl

/-- C3 witness: already at the initial configuration of a batch with one
worker, the completion barrier has not been reached. -/
theorem download_py_workers_never_terminate_witness :
    1 ≤ 1 ∧ ¬ AllDone (initCfg [] 1) :=
  ⟨le_refl 1,
   download_py_workers_never_terminate netAll [] 1 (initCfg [] 1)
     (le_refl 1) Relation.ReflTransGen.refl⟩

/-- C7: any `parallel` outside [1, 20] makes `async_download_artifacts`
raise before any network activity — the outcome is the `ValueError` and
the trace is empty: no catalog query and no download request. -/
theorem invalid_parallel_fails_before_network (api : GitHubApi)
    (net : Item → Bool) (run_id : Nat) (p : Int)
    (h : p < 1 ∨ 20 < p) (res : Except String (List String))
    (tr : List ApiCall) (hD : DownloadAll api net run_id p res tr) :
    res = Except.error msgInvalidParallel ∧ tr = [] := by
  cases hD with
  | invalid h0 => exact ⟨rfl, rfl⟩
  | run s h1 h2 hr ht => rcases h with h | h <;> omega

/-- C7 witness: `parallel = 0` is rejected with an empty trace. -/
theorem invalid_parallel_fails_before_network_witness :
    ((0 : Int) < 1 ∨ (20 : Int) < 0)
    ∧ ((Except.error msgInvalidParallel :
          Except String (List String)) = Except.error msgInvalidParallel
        ∧ ([] : List ApiCall) = []) :=
  ⟨Or.inl (by decide),
   invalid_parallel_fails_before_network apiEmpty netAll 1 0
     (Or.inl (by decide)) (Except.error msgInvalidParallel) []
     (DownloadAll.invalid 0 (Or.inl (by decide)))⟩

def apiOne : GitHubApi :=
  { workflows := [], runs := []
    artifacts := fun _ => [{ name := "a", archive_download_url := "u" }]
    releases := [] }

/-- C1 (amended): for any valid `parallel` and any schedule, the returned
`paths` aggregate contains, as a multiset, exactly one entry per item
whose download succeeded; failed items contribute no entry to the
returned aggregate. -/
theorem downloadAll_returns_exactly_successes (api : GitHubApi)
    (net : Item → Bool) (run_id : Nat) (p : Int)
    (res : Except String (List String)) (tr : List ApiCall)
    (h1 : 1 ≤ p) (h2 : p ≤ 20)
    (hD : DownloadAll api net run_id p res tr) :
    ∃ names, res = Except.ok names
      ∧ (↑names : Multiset String)
          = ↑(((get_artifacts_download_urls api run_id).filter
              (fun it => net it)).map Prod.fst)
      ∧ names.length = ((get_artifacts_download_urls api run_id).filter
          (fun it => net it)).length := by
  cases hD with
  | invalid h0 => rcases h0 with h0 | h0 <;> omega
  | run s hh1 hh2 hr ht =>
    have hp : 1 ≤ p.toNat := by omega
    obtain ⟨hpaths, _, _, _⟩ := pool_final hp hr ht
    refine ⟨s.paths, rfl, hpaths, ?_⟩
    have hc := congrArg Multiset.card hpaths
    simpa using hc

/-- C1 witness: one item, transport succeeding, one worker. -/
theorem downloadAll_returns_exactly_successes_witness :
    (1 : Int) ≤ 1 ∧ (1 : Int) ≤ 20
    ∧ ∃ names, (Except.ok ["a"] : Except String (List String)) = Except.ok names
        ∧ (↑names : Multiset String)
            = ↑(((get_artifacts_download_urls apiOne 1).filter
                (fun it => netAll it)).map Prod.fst)
        ∧ names.length = ((get_artifacts_download_urls apiOne 1).filter
            (fun it => netAll it)).length := by
  refine ⟨by decide, by decide, ?_⟩
  have hD : DownloadAll apiOne netAll 1 1 (Except.ok ["a"])
      [ApiCall.listArtifacts 1, ApiCall.download "a" "u"] :=
    DownloadAll.run 1 _ (by decide) (by decide)
      (reach_seq netAll (get_artifacts_download_urls apiOne 1) [] [] [])
      (allDone_terminal (by decide))
  exact downloadAll_returns_exactly_successes apiOne netAll 1 1 _ _
    (by decide) (by decide) hD

/-- C1 counterexample: a batch with one item whose download fails returns
an empty aggregate — the failed item has no result entry, so the returned
aggregate does not have one entry per input descriptor. -/
theorem failed_item_missing_from_batch_result :
    DownloadAll apiOne netNone 1 1 (Except.ok [])
      [ApiCall.listArtifacts 1, ApiCall.download "a" "u"]
    ∧ (get_artifacts_download_urls apiOne 1).length = 1
    ∧ ([] : List String).length ≠ 1 := by
  refine ⟨?_, by decide, by decide⟩
  exact DownloadAll.run 1 _ (by decide) (by decide)
    (reach_seq netNone (get_artifacts_download_urls apiOne 1) [] [] [])
    (allDone_terminal (by decide))

def q5 : List Item :=
  [("a", "u1"), ("b", "u2"), ("c", "u3"), ("d", "u4"), ("e", "u5")]

def net5 : Item → Bool := fun it => !(it.1 == "c")

def api5 : GitHubApi :=
  { workflows := [], runs := []
    artifacts := fun _ =>
      [{ name := "a", archive_download_url := "u1" },
       { name := "b", archive_download_url := "u2" },
       { name := "c", archive_download_url := "u3" },
       { name := "d", archive_download_url := "u4" },
       { name := "e", archive_download_url := "u5" }]
    releases := [] }

/-- C2 (amended): in a five-item batch where the transport fails on
exactly one item, under every schedule the failure is caught and logged
(one `red_print` entry naming the failed item), the workers keep draining
the queue, and the four remaining items all succeed and are all returned —
none is blocked or lost.  The failed item appears only in the error log,
not in the returned aggregate. -/
theorem one_transport_failure_isolated (net : Item → Bool)
    (q : List Item) (p : Nat) (it0 : Item) (s : Cfg)
    (hlen : q.length = 5)
    (hfail : q.filter (fun it => !net it) = [it0])
    (hp : 1 ≤ p)
    (hr : Reach net (initCfg q p) s) (ht : Terminal net s) :
    s.paths.length = 4 ∧ s.errs = [it0.1]
      ∧ (↑s.paths : Multiset String)
          = ↑((q.filter (fun it => net it)).map Prod.fst) := by
  obtain ⟨hpaths, herrs, _, _⟩ := pool_final hp hr ht
  have hsplit := length_filter_not (fun it => net it) q
  rw [hfail] at hsplit
  have hlen4 : (q.filter (fun it => net it)).length = 4 := by
    simp at hsplit
    omega
  refine ⟨?_, ?_, hpaths⟩
  · have hc := congrArg Multiset.card hpaths
    simpa [hlen4] using hc
  · rw [hfail] at herrs
    have hperm := Multiset.coe_eq_coe.mp herrs
    simpa [List.perm_singleton] using hperm

def s5 : Cfg :=
  { queue := [], workers := [WStatus.done]
    paths := ["a", "b", "d", "e"], errs := ["c"]
    log := [ApiCall.download "a" "u1", ApiCall.download "b" "u2",
      ApiCall.download "c" "u3", ApiCall.download "d" "u4",
      ApiCall.download "e" "u5"] }

/-- C2 witness: the concrete five-item batch where only item `c` fails,
run by a single worker. -/
theorem one_transport_failure_isolated_witness :
    q5.length = 5 ∧ q5.filter (fun it => !net5 it) = [("c", "u3")] ∧ 1 ≤ 1
    ∧ (s5.paths.length = 4 ∧ s5.errs = [("c", "u3").1]
        ∧ (↑s5.paths : Multiset String)
            = ↑((q5.filter (fun it => net5 it)).map Prod.fst)) := by
  refine ⟨by decide, by decide, by decide, ?_⟩
  exact one_transport_failure_isolated net5 q5 1 ("c", "u3") s5
    (by decide) (by decide) (by decide)
    (reach_seq net5 q5 [] [] []) (allDone_terminal (by decide))

/-- C2 counterexample: the five-item batch with one transport failure
returns an aggregate of four entries — there is no `Failure` entry in the
returned value, so the batch does not yield five results. -/
theorem five_item_batch_returns_four_results :
    DownloadAll api5 net5 1 1 (Except.ok ["a", "b", "d", "e"])
      [ApiCall.listArtifacts 1, ApiCall.download "a" "u1",
        ApiCall.download "b" "u2", ApiCall.download "c" "u3",
        ApiCall.download "d" "u4", ApiCall.download "e" "u5"]
    ∧ (get_artifacts_download_urls api5 1).length = 5
    ∧ (["a", "b", "d", "e"] : List String).length ≠ 5 := by
  refine ⟨?_, by decide, by decide⟩
  exact DownloadAll.run 1 _ (by decide) (by decide)
    (reach_seq net5 (get_artifacts_download_urls api5 1) [] [] [])
    (allDone_terminal (by decide))

/-- C8 (amended): on an empty remote collection the two catalog/selector
paths behave differently: `get_artifacts_download_urls` returns the empty
mapping without raising, while `get_latest_release` raises. -/
theorem catalog_empty_selector_behavior :
    (∀ (api : GitHubApi) (rid : Nat), api.artifacts rid = [] →
        get_artifacts_download_urls api rid = [])
    ∧ (∀ api : GitHubApi, api.releases = [] →
        get_latest_release api = Except.error msgNoReleases) := by
  constructor
  · intro api rid h
    unfold get_artifacts_download_urls
    rw [h]
    rfl
  · intro api h
    unfold get_latest_release
    rw [h]
    rfl

/-- C8 witness. -/
theorem catalog_empty_selector_behavior_witness :
    get_artifacts_download_urls apiEmpty 3 = []
    ∧ get_latest_release apiEmpty = Except.error msgNoReleases :=
  ⟨catalog_empty_selector_behavior.1 apiEmpty 3 rfl,
   catalog_empty_selector_behavior.2 apiEmpty rfl⟩

/-- C8 counterexample: a run with zero artifacts yields an empty mapping
and the batch proceeds to a normal empty result — no error is raised
anywhere, contradicting the claimed NotFoundError. -/
theorem empty_artifact_catalog_returns_empty_mapping :
    get_artifacts_download_urls apiEmpty 7 = []
    ∧ DownloadAll apiEmpty netAll 7 1 (Except.ok [])
        [ApiCall.listArtifacts 7] := by
  refine ⟨by decide, ?_⟩
  exact DownloadAll.run 1 _ (by decide) (by decide)
    (reach_seq netAll (get_artifacts_download_urls apiEmpty 7) [] [] [])
    (allDone_terminal (by decide))

/-- Archive-contents oracle for the extraction examples: `a.zip` holds the
single member `x.txt`; everything else is corrupt. -/
def cA : String → Option (List String) :=
  fun s => if s == "a" then some ["x.txt"] else none

/-- C9 (amended): the toolbox downloader unpacks each archive into
`destDir/<stem>/` and deletes the archive only after successful
extraction (on failure nothing changes, so the archive survives); the
legacy root script instead unpacks directly into `destDir` with no
per-item subdirectory, also deleting the archive afterwards. -/
theorem extract_mode_behavior (save_to : FsPath)
    (contents : String → Option (List String)) (fs : FS) (stem : String) :
    (∀ ms, contents stem = some ms →
        ∃ fs2, unzip_one save_to contents fs stem = some fs2
          ∧ (∀ m ∈ ms, save_to ++ [stem, m] ∈ fs2)
          ∧ artifactPath save_to stem ∉ fs2)
    ∧ (contents stem = none →
        unzip_one save_to contents fs stem = none
          ∧ unzip_one_legacy save_to contents fs stem = none)
    ∧ (∀ ms, contents stem = some ms →
        ∃ fs2, unzip_one_legacy save_to contents fs stem = some fs2
          ∧ (∀ m ∈ ms, save_to ++ [m] ≠ artifactPath save_to stem →
              save_to ++ [m] ∈ fs2)
          ∧ artifactPath save_to stem ∉ fs2) := by
  refine ⟨?_, ?_, ?_⟩
  · intro ms hms
    refine ⟨_, by unfold unzip_one; rw [hms], ?_, ?_⟩
    · intro m hm
      rw [List.mem_filter]
      constructor
      · exact List.mem_append_right _ (List.mem_map_of_mem _ hm)
      · have hne : save_to ++ [stem, m] ≠ artifactPath save_to stem := by
          intro he
          have := congrArg List.length he
          simp [artifactPath] at this
        simp [hne]
    · intro hmem
      rw [List.mem_filter] at hmem
      simp at hmem
  · intro hnone
    constructor
    · unfold unzip_one; rw [hnone]
    · unfold unzip_one_legacy; rw [hnone]
  · intro ms hms
    refine ⟨_, by unfold unzip_one_legacy; rw [hms], ?_, ?_⟩
    · intro m hm he
      rw [List.mem_filter]
      refine ⟨List.mem_append_right _ (List.mem_map_of_mem _ hm), by simp [he]⟩
    · intro hmem
      rw [List.mem_filter] at hmem
      simp at hmem

/-- C9 witness: extracting `a.zip` containing `x.txt` with the toolbox
driver yields `destDir/a/x.txt` and deletes `destDir/a.zip`. -/
theorem extract_mode_behavior_witness :
    cA "a" = some ["x.txt"]
    ∧ ∃ fs2, unzip_one ["dest"] cA [["dest", "a.zip"]] "a" = some fs2
        ∧ (∀ m ∈ ["x.txt"], ["dest"] ++ ["a", m] ∈ fs2)
        ∧ artifactPath ["dest"] "a" ∉ fs2 :=
  ⟨rfl, (extract_mode_behavior ["dest"] cA [["dest", "a.zip"]] "a").1
    ["x.txt"] rfl⟩

/-- C9 counterexample: the legacy script's extract mode places `x.txt`
directly in the destination directory; `destDir/a/x.txt` is not created,
so extraction is not into a per-stem subdirectory. -/
theorem legacy_unzip_extracts_flat :
    unzip_one_legacy ["dest"] cA [["dest", "a.zip"]] "a"
      = some [["dest", "x.txt"]]
    ∧ ["dest", "a", "x.txt"] ∉ [["dest", "x.txt"]]
    ∧ cA "a" = some ["x.txt"] := by
  refine ⟨by decide, by decide, rfl⟩

/-- C10: the release queue carries, besides one entry per asset, the two
extra entries `src.zip` and `src.tar.gz`, both with the identical source
tarball (`.tar.gz`) URL for the release's tag — so the file saved as
`src.zip` receives the same gzip-compressed tar payload as `src.tar.gz`,
not zip data — and a fully successful batch returns two more paths than
the release has assets. -/
theorem release_download_includes_two_source_archives (api : GitHubApi)
    (net : Item → Bool) (release_id : Nat) (p : Int) (rel : Release)
    (res : Except String (List String))
    (h1 : 1 ≤ p) (h2 : p ≤ 20)
    (hf : api.releases.find? (fun r => r.id == release_id) = some rel)
    (hnet : ∀ it ∈ release_item_queue rel, net it = true)
    (hD : DownloadRelease api net release_id p res) :
    (release_item_queue rel).length = rel.assets.length + 2
    ∧ ("src.zip", tarball_url rel.tag_name) ∈ release_item_queue rel
    ∧ ("src.tar.gz", tarball_url rel.tag_name) ∈ release_item_queue rel
    ∧ ∃ names, res = Except.ok names
        ∧ names.length = rel.assets.length + 2 := by
  refine ⟨by simp [release_item_queue], ?_, ?_, ?_⟩
  · unfold release_item_queue
    exact List.mem_append_right _ (by simp)
  · unfold release_item_queue
    exact List.mem_append_right _ (by simp)
  · cases hD with
    | invalid h0 => rcases h0 with h0 | h0 <;> omega
    | no_release hh1 hh2 hf2 => rw [hf] at hf2; cases hf2
    | run rel2 s hh1 hh2 hf2 hr ht =>
      rw [hf] at hf2
      injection hf2 with he
      subst he
      have hp : 1 ≤ p.toNat := by omega
      obtain ⟨hpaths, _, _, _⟩ := pool_final hp hr ht
      have hfilter : (release_item_queue rel).filter (fun it => net it)
          = release_item_queue rel :=
        List.filter_eq_self.mpr hnet
      refine ⟨s.paths, rfl, ?_⟩
      have hc := congrArg Multiset.card hpaths
      rw [hfilter] at hc
      simpa [release_item_queue] using hc

def asset1 : Asset :=
  { id := 1, name := "lib.so", content_type := "application/gzip"
    size := 10, download_count := 0, url := "au"
    browser_download_url := "abu" }

def rel1 : Release :=
  { id := 5, tag_name := "v1", draft := false, prerelease := false
    created_at := 1, published_at := 2, name := "r1", url := "u"
    html_url := "hu", tarball_url := "tu", zipball_url := "zu"
    assets_url := "asu", assets := [asset1] }

def apiRel : GitHubApi :=
  { workflows := [], runs := [], artifacts := fun _ => []
    releases := [rel1] }

/-- C10 witness: a release with one asset; the successful batch returns
three paths (one asset plus the two source archives). -/
theorem release_download_includes_two_source_archives_witness :
    (1 : Int) ≤ 1 ∧ (1 : Int) ≤ 20
    ∧ apiRel.releases.find? (fun r => r.id == 5) = some rel1
    ∧ (∀ it ∈ release_item_queue rel1, netAll it = true)
    ∧ ((release_item_queue rel1).length = rel1.assets.length + 2
        ∧ ("src.zip", tarball_url rel1.tag_name) ∈ release_item_queue rel1
        ∧ ("src.tar.gz", tarball_url rel1.tag_name) ∈ release_item_queue rel1
        ∧ ∃ names, (Except.ok ["lib.so", "src.zip", "src.tar.gz"] :
              Except String (List String)) = Except.ok names
            ∧ names.length = rel1.assets.length + 2) := by
  refine ⟨by decide, by decide, by decide, by decide, ?_⟩
  have hD : DownloadRelease apiRel netAll 5 1
      (Except.ok ["lib.so", "src.zip", "src.tar.gz"]) :=
    DownloadRelease.run 1 rel1 _ (by decide) (by decide) (by decide)
      (reach_seq netAll (release_item_queue rel1) [] [] [])
      (allDone_terminal (by decide))
  exact release_download_includes_two_source_archives apiRel netAll 5 1 rel1
    _ (by decide) (by decide) (by decide) (by decide) hD

/-- C4 (amended): the driver's exit code reflects only validation and
selection failures (and uncaught unzip/gate errors), never per-item
download failures.  When the run id resolves and `parallel` is in range
(no unzip), `main` returns normally — exit code 0 — whatever the
per-item outcomes; the returned aggregate holds exactly the successful
items and every successfully downloaded file is on disk.  When selection
fails with no explicit run id, every outcome is an uncaught exception —
exit code non-zero. -/
theorem exit_code_ignores_download_failures (api : GitHubApi)
    (net : Item → Bool) (contents : String → Option (List String))
    (fs0 : FS) (args : Args) (res : Except String (List String × FS))
    (hm : MainRun api net contents fs0 args res) :
    (args.run_id = 0 → ∀ e, (latest_artifact_run api).1 = Except.error e →
        ∃ msg, res = Except.error msg)
    ∧ (∀ rid, 1 ≤ args.parallel → args.parallel ≤ 20 → args.unzip = false →
        ResolvesTo api args rid →
        ∃ names, res = Except.ok
            (names, fs0 ++ names.map (artifactPath args.save_to))
          ∧ (↑names : Multiset String)
              = ↑(((get_artifacts_download_urls api rid).filter
                  (fun it => net it)).map Prod.fst)
          ∧ ∀ n ∈ names, artifactPath args.save_to n
              ∈ fs0 ++ names.map (artifactPath args.save_to)) := by
  constructor
  · intro hrun0 e0 hsel
    cases hm with
    | invalid_parallel h => exact ⟨_, rfl⟩
    | select_fail e hp h0 hs => exact ⟨_, rfl⟩
    | download_fail rid e tr hp hrid hD => exact ⟨_, rfl⟩
    | unzip_fail rid names tr hp hrid hD hu hz => exact ⟨_, rfl⟩
    | done rid names tr fs1 hp hrid hD hz =>
      rcases hrid with ⟨hne, _⟩ | ⟨_, run, hok, _⟩
      · exact absurd hrun0 hne
      · rw [hsel] at hok
        cases hok
  · intro rid hp1 hp2 hu hrid
    cases hm with
    | invalid_parallel h => omega
    | select_fail e hp h0 hs =>
      rcases hrid with ⟨hne, _⟩ | ⟨h02, run, hok, _⟩
      · exact absurd h0 hne
      · rw [hs] at hok
        cases hok
    | download_fail rid2 e tr hp hrid2 hD =>
      cases hD with
      | invalid h0 => rcases h0 with h0 | h0 <;> omega
    | unzip_fail rid2 names tr hp hrid2 hD hu2 hz =>
      rw [hu] at hu2
      cases hu2
    | done rid2 names tr fs1 hp hrid2 hD hz =>
      have hrr : rid2 = rid := resolvesTo_unique hrid2 hrid
      subst hrr
      rw [hu] at hz
      simp only [Bool.false_eq_true, if_false, Option.some.injEq] at hz
      subst hz
      cases hD with
      | run s hh1 hh2 hrch htm =>
        have hpn : 1 ≤ (args.parallel).toNat := by omega
        obtain ⟨hpaths, _, _, _⟩ := pool_final hpn hrch htm
        refine ⟨s.paths, rfl, hpaths, ?_⟩
        intro n hn
        exact List.mem_append_right _ (List.mem_map_of_mem _ hn)

/-- No-extraction oracle used in the driver examples. -/
def cNone : String → Option (List String) := fun _ => none

def args1 : Args :=
  { run_id := 1, save_to := ["dest"], parallel := 1, unzip := false }

/-- C4 counterexample: a batch whose single item fails at transport level
still lets `main` return normally — process exit code 0 — even though the
batch contains a failure; no exception reaches the driver. -/
theorem exit_zero_despite_download_failure :
    MainRun apiOne netNone cNone [] args1 (Except.ok ([], []))
    ∧ ("a", "u") ∈ get_artifacts_download_urls apiOne 1
    ∧ netNone ("a", "u") = false := by
  refine ⟨?_, by decide, by decide⟩
  have hD : DownloadAll apiOne netNone 1 1 (Except.ok [])
      [ApiCall.listArtifacts 1, ApiCall.download "a" "u"] :=
    DownloadAll.run 1 _ (by decide) (by decide)
      (reach_seq netNone (get_artifacts_download_urls apiOne 1) [] [] [])
      (allDone_terminal (by decide))
  exact MainRun.done args1 1 []
    [ApiCall.listArtifacts 1, ApiCall.download "a" "u"] []
    (by decide) (Or.inl ⟨by decide, rfl⟩) hD (by decide)

/-- C4 witness: a fully successful one-item batch exits 0 with the file
persisted. -/
theorem exit_code_ignores_download_failures_witness :
    (args1.run_id = 0 → ∀ e, (latest_artifact_run apiOne).1 = Except.error e →
        ∃ msg, (Except.ok (["a"], [["dest", "a.zip"]]) :
          Except String (List String × FS)) = Except.error msg)
    ∧ (∀ rid, 1 ≤ args1.parallel → args1.parallel ≤ 20 →
        args1.unzip = false → ResolvesTo apiOne args1 rid →
        ∃ names, (Except.ok (["a"], [["dest", "a.zip"]]) :
              Except String (List String × FS))
            = Except.ok (names, [] ++ names.map (artifactPath args1.save_to))
          ∧ (↑names : Multiset String)
              = ↑(((get_artifacts_download_urls apiOne rid).filter
                  (fun it => netAll it)).map Prod.fst)
          ∧ ∀ n ∈ names, artifactPath args1.save_to n
              ∈ [] ++ names.map (artifactPath args1.save_to)) := by
  have hD : DownloadAll apiOne netAll 1 1 (Except.ok ["a"])
      [ApiCall.listArtifacts 1, ApiCall.download "a" "u"] :=
    DownloadAll.run 1 _ (by decide) (by decide)
      (reach_seq netAll (get_artifacts_download_urls apiOne 1) [] [] [])
      (allDone_terminal (by decide))
  have hm : MainRun apiOne netAll cNone [] args1
      (Except.ok (["a"], [["dest", "a.zip"]])) :=
    MainRun.done args1 1 ["a"]
      [ApiCall.listArtifacts 1, ApiCall.download "a" "u"]
      [["dest", "a.zip"]]
      (by decide) (Or.inl ⟨by decide, rfl⟩) hD (by decide)
  exact exit_code_ignores_download_failures apiOne netAll cNone [] args1
    (Except.ok (["a"], [["dest", "a.zip"]])) hm
